import Mathlib

/-!
Verification development for the HSR-Index repository.

The repository consists of two scripts:
* `Priorization.py` — a conservation-priority scorer: four per-criterion
  scoring functions, equal-weight (0.25) contributions, a final additive
  score, percentage contributions, and a descending ranking.
* `Auxiliary scripts/genbi.py` — a taxonomy/sequence harvester: GenBank
  search strategies, pagination, and a record filter/classifier
  (`extract_info`) with a process-wide dedup registry.

Each Lean definition below embeds one Python function (or one loop of
`main`) of the repository; the doc comment of each definition names the
source function it embeds.  Python floats are modelled by `ℚ`: every
arithmetic operation the scorer performs on them (multiplication by 0.25,
i.e. an exact binary quarter, and addition of quarter-integers bounded by
7) is exact in IEEE double precision, so the rational model is exact for
those operations; the one inexact operation (the percentage division and
its 2-decimal rounding) is only ever used through the bound
`|round2 x - x| ≤ 1/200`, which holds for the float computation as well
up to an error many orders of magnitude below the tolerances claimed.
-/

namespace HSR

open scoped List

/-! ## Priorization.py — criterion scorers -/

/-- A raw `iucn_status` spreadsheet cell as `calculate_iucn_score` sees it:
`missing` covers the guard `pd.isna(status) or status == "" or status is None`;
`value s` carries `str(status)` otherwise. -/
inductive IucnCell where
  | missing
  | value (s : String)
deriving DecidableEq, Repr

/-- A raw numeric spreadsheet cell as the three numeric scorers see it:
`missing` covers the guard `pd.isna(x) or x == "" or x is None`;
`number q` means `float(x)` succeeds and returns the value modelled by `q`;
`unparseable` means `float(x)` raises `ValueError`/`TypeError`. -/
inductive NumCell where
  | missing
  | number (q : ℚ)
  | unparseable
deriving DecidableEq, Repr

/-- Embeds `calculate_iucn_score` (Priorization.py lines 5-19): the guard
returns 3 on missing input, otherwise `scores.get(str(status).upper(), 3)`
over the literal lookup table. -/
def calculate_iucn_score : IucnCell → ℤ
  | .missing => 3
  | .value s =>
    match s.toUpper with
    | "CR" => 7
    | "EN" => 6
    | "VU" => 5
    | "NT" => 4
    | "DD" => 4
    | "LC" => 3
    | "NE" => 1
    | _ => 3

/-- Embeds `calculate_area_loss_score` (Priorization.py lines 21-34): 3 on
missing input, the percentage banding on a parsed float, 3 when `float`
raises. -/
def calculate_area_loss_score : NumCell → ℤ
  | .missing => 3
  | .unparseable => 3
  | .number q =>
    if 80 < q then 5
    else if 60 < q then 4
    else if 40 < q then 3
    else if 20 < q then 2
    else 1

/-- Embeds `calculate_eoo_score` (Priorization.py lines 36-49). -/
def calculate_eoo_score : NumCell → ℤ
  | .missing => 3
  | .unparseable => 3
  | .number q =>
    if q < 100 then 5
    else if q < 5000 then 4
    else if q < 20000 then 3
    else if q < 50000 then 2
    else 1

/-- Embeds `calculate_human_footprint_score` (Priorization.py lines 51-64);
same banding shape as the area-loss scorer. -/
def calculate_human_footprint_score : NumCell → ℤ
  | .missing => 3
  | .unparseable => 3
  | .number q =>
    if 80 < q then 5
    else if 60 < q then 4
    else if 40 < q then 3
    else if 20 < q then 2
    else 1

/-! ## Priorization.py — per-row contribution pipeline

`prioritize_species` computes, for one climate scenario, per-row columns
(lines 193-218 for SSP245, 224-249 for SSP585).  A row's raw inputs are
the four cells feeding the four scorers; the scenario only chooses which
area-loss column is used, so one structure covers both scenarios. -/

/-- The four raw cells of one input row that one scenario's score columns
are computed from (`iucn_status`, the scenario's `area_loss_*` column,
`eoo`, `human_footprint`). -/
structure ScoreInputs where
  iucn : IucnCell
  areaLoss : NumCell
  eoo : NumCell
  footprint : NumCell
deriving DecidableEq, Repr

/-- Column `iucn_score`. -/
def iucn_score (r : ScoreInputs) : ℤ := calculate_iucn_score r.iucn

/-- Column `area_loss_score`. -/
def area_loss_score (r : ScoreInputs) : ℤ := calculate_area_loss_score r.areaLoss

/-- Column `eoo_score`. -/
def eoo_score (r : ScoreInputs) : ℤ := calculate_eoo_score r.eoo

/-- Column `human_footprint_score`. -/
def human_footprint_score (r : ScoreInputs) : ℤ :=
  calculate_human_footprint_score r.footprint

/-- Column `iucn_contribution_abs = iucn_score * 0.25` (line 199/230). -/
def iucn_contribution_abs (r : ScoreInputs) : ℚ := (iucn_score r : ℚ) * 0.25

/-- Column `area_loss_contribution_abs` (line 200/231). -/
def area_loss_contribution_abs (r : ScoreInputs) : ℚ :=
  (area_loss_score r : ℚ) * 0.25

/-- Column `eoo_contribution_abs` (line 201/232). -/
def eoo_contribution_abs (r : ScoreInputs) : ℚ := (eoo_score r : ℚ) * 0.25

/-- Column `human_footprint_contribution_abs` (line 202/233). -/
def human_footprint_contribution_abs (r : ScoreInputs) : ℚ :=
  (human_footprint_score r : ℚ) * 0.25

/-- Column `final_score`: the sum of the four absolute contributions
(lines 205-210/236-241). -/
def final_score (r : ScoreInputs) : ℚ :=
  iucn_contribution_abs r + area_loss_contribution_abs r +
    eoo_contribution_abs r + human_footprint_contribution_abs r

/-- Round-half-to-even to an integer, the rounding mode of `numpy.round`
(which pandas `.round` delegates to). -/
def roundHalfEven (x : ℚ) : ℤ :=
  if x - ⌊x⌋ < 1/2 then ⌊x⌋
  else if 1/2 < x - ⌊x⌋ then ⌊x⌋ + 1
  else if 2 ∣ ⌊x⌋ then ⌊x⌋ else ⌊x⌋ + 1

/-- `.round(2)`: round to 2 decimal places, half to even. -/
def round2 (x : ℚ) : ℚ := (roundHalfEven (x * 100) : ℚ) / 100

/-- One percentage-contribution column:
`(contribution_abs / final_score * 100).round(2)` (lines 213-218/244-249).
The trailing `'%'` string marker is presentation only and not modelled.
Rational division is total (`x / 0 = 0`) where Python would raise; the
divisor is proved nonzero below, so the models agree. -/
def pct_contribution (abs fin : ℚ) : ℚ := round2 (abs / fin * 100)

/-- Sum of the four percentage-contribution columns of one row. -/
def pct_sum (r : ScoreInputs) : ℚ :=
  pct_contribution (iucn_contribution_abs r) (final_score r) +
    pct_contribution (area_loss_contribution_abs r) (final_score r) +
    pct_contribution (eoo_contribution_abs r) (final_score r) +
    pct_contribution (human_footprint_contribution_abs r) (final_score r)

/-! ### Bounds on the four scorers -/

theorem iucn_score_bounds (c : IucnCell) :
    1 ≤ calculate_iucn_score c ∧ calculate_iucn_score c ≤ 7 := by
  constructor <;> (cases c <;> simp only [calculate_iucn_score] <;> (try split) <;> omega)

theorem area_loss_score_bounds (c : NumCell) :
    1 ≤ calculate_area_loss_score c ∧ calculate_area_loss_score c ≤ 5 := by
  constructor <;>
    (cases c <;> simp only [calculate_area_loss_score] <;> (try split_ifs) <;> omega)

theorem eoo_score_bounds (c : NumCell) :
    1 ≤ calculate_eoo_score c ∧ calculate_eoo_score c ≤ 5 := by
  constructor <;>
    (cases c <;> simp only [calculate_eoo_score] <;> (try split_ifs) <;> omega)

theorem human_footprint_score_bounds (c : NumCell) :
    1 ≤ calculate_human_footprint_score c ∧ calculate_human_footprint_score c ≤ 5 := by
  constructor <;>
    (cases c <;> simp only [calculate_human_footprint_score] <;> (try split_ifs) <;> omega)

theorem final_score_ge_one (r : ScoreInputs) : 1 ≤ final_score r := by
  have h1 := (iucn_score_bounds r.iucn).1
  have h2 := (area_loss_score_bounds r.areaLoss).1
  have h3 := (eoo_score_bounds r.eoo).1
  have h4 := (human_footprint_score_bounds r.footprint).1
  unfold final_score iucn_contribution_abs area_loss_contribution_abs
    eoo_contribution_abs human_footprint_contribution_abs
    iucn_score area_loss_score eoo_score human_footprint_score
  have e1 : (1 : ℚ) ≤ (calculate_iucn_score r.iucn : ℚ) := by exact_mod_cast h1
  have e2 : (1 : ℚ) ≤ (calculate_area_loss_score r.areaLoss : ℚ) := by exact_mod_cast h2
  have e3 : (1 : ℚ) ≤ (calculate_eoo_score r.eoo : ℚ) := by exact_mod_cast h3
  have e4 : (1 : ℚ) ≤ (calculate_human_footprint_score r.footprint : ℚ) := by exact_mod_cast h4
  linarith

theorem final_score_ne_zero (r : ScoreInputs) : final_score r ≠ 0 := by
  have := final_score_ge_one r
  intro h
  rw [h] at this
  norm_num at this

/-! ### Rounding bound -/

theorem roundHalfEven_abs_sub (x : ℚ) : |(roundHalfEven x : ℚ) - x| ≤ 1/2 := by
  have hfl : (⌊x⌋ : ℚ) ≤ x := Int.floor_le x
  have hfu : x < ⌊x⌋ + 1 := Int.lt_floor_add_one x
  unfold roundHalfEven
  split_ifs with h1 h2 h3 <;> push_cast <;> rw [abs_sub_le_iff] <;>
    constructor <;> linarith

theorem round2_abs_sub (x : ℚ) : |round2 x - x| ≤ 1/200 := by
  unfold round2
  have h := roundHalfEven_abs_sub (x * 100)
  have e : (roundHalfEven (x * 100) : ℚ) / 100 - x =
      ((roundHalfEven (x * 100) : ℚ) - x * 100) / 100 := by ring
  rw [e, abs_div, abs_of_pos (show (0:ℚ) < 100 by norm_num)]
  linarith

theorem abs_contribution_sum (r : ScoreInputs) :
    iucn_contribution_abs r + area_loss_contribution_abs r +
      eoo_contribution_abs r + human_footprint_contribution_abs r = final_score r := rfl

theorem pct_contribution_ideal_sum (r : ScoreInputs) :
    iucn_contribution_abs r / final_score r * 100 +
      area_loss_contribution_abs r / final_score r * 100 +
      eoo_contribution_abs r / final_score r * 100 +
      human_footprint_contribution_abs r / final_score r * 100 = 100 := by
  have hF := final_score_ne_zero r
  have habs := abs_contribution_sum r
  field_simp
  linarith

theorem pct_sum_near_100 (r : ScoreInputs) : |pct_sum r - 100| ≤ 1/50 := by
  have h1 := round2_abs_sub (iucn_contribution_abs r / final_score r * 100)
  have h2 := round2_abs_sub (area_loss_contribution_abs r / final_score r * 100)
  have h3 := round2_abs_sub (eoo_contribution_abs r / final_score r * 100)
  have h4 := round2_abs_sub (human_footprint_contribution_abs r / final_score r * 100)
  have hsum := pct_contribution_ideal_sum r
  unfold pct_sum pct_contribution
  rw [abs_sub_le_iff] at h1 h2 h3 h4 ⊢
  constructor <;> linarith

/-! ## Priorization.py — descending ranking (`sort_values` + rank column)

`df.sort_values('final_score', ascending=False)` (lines 268-269) calls
pandas `nargsort(values, kind='quicksort', ascending=False)`, which
(a) reverses the value array and the index array, (b) argsorts the
reversed values ascending with numpy's `argsort(kind='quicksort')`,
(c) maps the argsort result through the reversed index array and
(d) reverses the final indexer.  `final_score` is never NaN (the scorers
are total), so `nargsort`'s NaN handling is vacuous and not modelled.

numpy's `quicksort` argsort (`aquicksort` in npysort/quicksort.c.src) is
an introsort over index segments with an explicit stack: a segment whose
pointer difference exceeds `SMALL_QUICKSORT = 15` (i.e. 17 or more
entries) is partitioned — median-of-3 pivot, Hoare scan — which SWAPS
equal-key entries, so the sort is NOT stable there; segments of at most
16 entries are finished by a plain (stable) insertion sort; a single
depth counter initialised to `2 * npy_get_msb(num)` and decremented at
every partition switches the segment to `aheapsort` when it runs out.
All of it is embedded below as fuel-bounded structural recursion on an
index list (each step pops or splits a segment, so the fuel passed by
`npyAargsort` is never exhausted). -/

/-- The strict key comparison `LT(v[i], v[j])` the C sorts make:
positions compare by their values in `v`. -/
def rlt (v : List ℚ) (i j : ℕ) : Prop := v.getD i 0 < v.getD j 0

instance (v : List ℚ) : DecidableRel (rlt v) := fun i j =>
  inferInstanceAs (Decidable (v.getD i 0 < v.getD j 0))

/-- Non-strict key comparison: the order in which an argsort output is
sorted. -/
def keyLE (v : List ℚ) (i j : ℕ) : Prop := v.getD i 0 ≤ v.getD j 0

instance (v : List ℚ) : DecidableRel (keyLE v) := fun i j =>
  inferInstanceAs (Decidable (v.getD i 0 ≤ v.getD j 0))

/-- `INTP_SWAP(tosort[a], tosort[b])`. -/
def lswap (t : List ℕ) (a b : ℕ) : List ℕ :=
  (t.set a (t.getD b 0)).set b (t.getD a 0)

/-- `do ++pi; while (LT(v[tosort[pi]], vp))`: advance the left scan
pointer past keys strictly below the pivot value (fuel-bounded; the
median-of-3 pivot bounds the scan in range, so the fuel `t.length`
passed by `partitionLoop` is never exhausted on a real run). -/
def scanUp (v : List ℚ) (t : List ℕ) (vp : ℚ) : ℕ → ℕ → ℕ
  | 0, pi => pi + 1
  | fuel + 1, pi =>
    if v.getD (t.getD (pi + 1) 0) 0 < vp then scanUp v t vp fuel (pi + 1) else pi + 1

/-- `do --pj; while (LT(vp, v[tosort[pj]]))`. -/
def scanDown (v : List ℚ) (t : List ℕ) (vp : ℚ) : ℕ → ℕ → ℕ
  | 0, pj => pj - 1
  | fuel + 1, pj =>
    if vp < v.getD (t.getD (pj - 1) 0) 0 then scanDown v t vp fuel (pj - 1) else pj - 1

/-- The Hoare scan/swap loop of `aquicksort`'s partition: scan up and
down, stop when the pointers cross (`pi >= pj`), otherwise swap and
continue.  Returns the index array and the crossing point `pi`. -/
def partitionLoop (v : List ℚ) (vp : ℚ) : ℕ → List ℕ → ℕ → ℕ → List ℕ × ℕ
  | 0, t, pi, _ => (t, pi)
  | fuel + 1, t, pi, pj =>
    let pi' := scanUp v t vp t.length pi
    let pj' := scanDown v t vp t.length pj
    if pj' ≤ pi' then (t, pi')
    else partitionLoop v vp fuel (lswap t pi' pj') pi' pj'

/-- One partition of `aquicksort` on the segment `[pl, pr]`: the three
median-of-3 conditional swaps, the pivot index parked at `pr - 1`, the
scan/swap loop from `pi = pl`, `pj = pr - 1`, then the final swap placing
the pivot at the crossing point.  Returns the array and the crossing
point. -/
def partitionSeg (v : List ℚ) (t : List ℕ) (pl pr : ℕ) : List ℕ × ℕ :=
  let pm := pl + (pr - pl) / 2
  let t1 := if rlt v (t.getD pm 0) (t.getD pl 0) then lswap t pm pl else t
  let t2 := if rlt v (t1.getD pr 0) (t1.getD pm 0) then lswap t1 pr pm else t1
  let t3 := if rlt v (t2.getD pm 0) (t2.getD pl 0) then lswap t2 pm pl else t2
  let vp := v.getD (t3.getD pm 0) 0
  let t4 := lswap t3 pm (pr - 1)
  let p := partitionLoop v vp (t4.length + 1) t4 pl (pr - 1)
  (lswap p.1 p.2 (pr - 1), p.2)

/-- `a[k]` of `aheapsort`'s one-based view of the segment starting at
`pl` (the C offsets the pointer by one). -/
def aGet (t : List ℕ) (pl k : ℕ) : ℕ := t.getD (pl + k - 1) 0

/-- `a[k] = x` of the same one-based view. -/
def aSet (t : List ℕ) (pl k x : ℕ) : List ℕ := t.set (pl + k - 1) x

/-- The sift-down loop shared by both phases of `aheapsort`: while the
child index `j` is in heap range, pick the larger child, move it up while
it beats `tmp`, then drop `tmp` at the final hole `i`. -/
def aheapSift (v : List ℚ) (pl tmp : ℕ) : ℕ → List ℕ → ℕ → ℕ → ℕ → List ℕ
  | 0, t, _, i, _ => aSet t pl i tmp
  | fuel + 1, t, n, i, j =>
    if j ≤ n then
      let j2 := if j < n ∧ rlt v (aGet t pl j) (aGet t pl (j + 1)) then j + 1 else j
      if v.getD tmp 0 < v.getD (aGet t pl j2) 0 then
        aheapSift v pl tmp fuel (aSet t pl i (aGet t pl j2)) n j2 (j2 + j2)
      else aSet t pl i tmp
    else aSet t pl i tmp

/-- Heap construction phase of `aheapsort` (`for l = n >> 1; l > 0; --l`). -/
def aheapBuild (v : List ℚ) (pl : ℕ) : ℕ → List ℕ → ℕ → ℕ → List ℕ
  | 0, t, _, _ => t
  | fuel + 1, t, n, l =>
    if l = 0 then t
    else aheapBuild v pl fuel
      (aheapSift v pl (aGet t pl l) (t.length + 2) t n l (2 * l)) n (l - 1)

/-- Extraction phase of `aheapsort` (`for (; n > 1;)`): swap the root
with the last heap entry, shrink the heap, sift down. -/
def aheapExtract (v : List ℚ) (pl : ℕ) : ℕ → List ℕ → ℕ → List ℕ
  | 0, t, _ => t
  | fuel + 1, t, n =>
    if n ≤ 1 then t
    else
      aheapExtract v pl fuel
        (aheapSift v pl (aGet t pl n) (t.length + 2) (aSet t pl n (aGet t pl 1)) (n - 1) 1 2)
        (n - 1)

/-- Embeds numpy `aheapsort` on the segment of `n` entries starting at
`pl` — the introsort depth-limit fallback of `aquicksort`. -/
def aheapsortSeg (v : List ℚ) (t : List ℕ) (pl n : ℕ) : List ℕ :=
  aheapExtract v pl (n + 1) (aheapBuild v pl (n / 2 + 1) t n (n / 2)) n

/-- Left-fold stable insertion of positions by strict key order: each
element is inserted after every element with key ≤ its own — exactly
where `aquicksort`'s insertion-sort epilogue places it (the C loop takes
the segment elements left to right and shifts right precisely the
already-placed elements with strictly greater key). -/
def foldlIns (v : List ℚ) (l : List ℕ) : List ℕ :=
  l.foldl (fun acc i => acc.orderedInsert (rlt v) i) []

/-- The insertion-sort epilogue of `aquicksort` on the segment
`[pl, pr]`: the segment is replaced by its stable insertion sort, the
rest of the index array untouched. -/
def insertionSeg (v : List ℚ) (t : List ℕ) (pl pr : ℕ) : List ℕ :=
  t.take pl ++ foldlIns v ((t.drop pl).take (pr + 1 - pl)) ++ t.drop (pr + 1)

/-- The `for (;;)` driver of `aquicksort`: the head of the segment list
is the segment the C loop is working on, the tail is its explicit stack.
A big segment is partitioned (after the shared depth counter is checked
and decremented — when it was already negative the segment goes to
`aheapsort` instead); the smaller half is continued with and the larger
pushed.  A small segment is insertion sorted and the next segment
popped. -/
def aqsGo (v : List ℚ) : ℕ → List ℕ → ℤ → List (ℕ × ℕ) → List ℕ
  | _, t, _, [] => t
  | 0, t, _, _ => t
  | fuel + 1, t, depth, (pl, pr) :: stack =>
    if 15 < pr - pl then
      if depth < 0 then
        aqsGo v fuel (aheapsortSeg v t pl (pr - pl + 1)) (depth - 1) stack
      else
        let p := partitionSeg v t pl pr
        if p.2 - pl < pr - p.2 then
          aqsGo v fuel p.1 (depth - 1) ((pl, p.2 - 1) :: (p.2 + 1, pr) :: stack)
        else
          aqsGo v fuel p.1 (depth - 1) ((p.2 + 1, pr) :: (pl, p.2 - 1) :: stack)
    else
      aqsGo v fuel (insertionSeg v t pl pr) depth stack

/-- Embeds numpy `argsort(kind='quicksort')` of the value list `v`: run
`aquicksort` on the index array `0, …, len-1` with the depth limit
`2 * npy_get_msb(num)`. -/
def npyAargsort (v : List ℚ) : List ℕ :=
  aqsGo v (4 * v.length + 16) (List.range v.length) (2 * (Nat.log2 v.length : ℤ))
    [(0, v.length - 1)]

/-- Embeds pandas `nargsort(values, kind='quicksort', ascending=False)`:
reversed values are argsorted ascending by numpy's quicksort, the result
is mapped through the reversed index array, and the final indexer is
reversed. -/
def nargsortDesc (v : List ℚ) : List ℕ :=
  ((npyAargsort v.reverse).map
    (fun i => ((List.range v.length).reverse).getD i 0)).reverse

/-- Embeds `df_sorted['rank_*'] = range(1, len(df_sorted) + 1)`
(Priorization.py lines 343-344): each sorted row is paired with its
1-based position. -/
def addRanks {α : Type} (l : List α) : List (α × ℕ) :=
  l.zip (List.range' 1 l.length)

theorem getD_reverse_of_lt {α : Type} (l : List α) (i : ℕ) (h : i < l.length) (d : α) :
    l.reverse.getD i d = l.getD (l.length - 1 - i) d := by
  have h1 : i < l.reverse.length := by simpa using h
  have h2 : l.length - 1 - i < l.length := Nat.sub_one_sub_lt_of_lt h
  rw [List.getD_eq_getElem?_getD, List.getD_eq_getElem?_getD,
    List.getElem?_eq_getElem h1, List.getElem?_eq_getElem h2]
  simp

theorem ridx_getD {n i : ℕ} (h : i < n) :
    ((List.range n).reverse).getD i 0 = n - 1 - i := by
  rw [getD_reverse_of_lt _ _ (by simpa using h)]
  simp only [List.length_range]
  rw [List.getD_eq_getElem?_getD,
    List.getElem?_eq_getElem (by simpa using Nat.sub_one_sub_lt_of_lt h)]
  simp

theorem pair_sublist_range {a b n : ℕ} (hab : a < b) (hb : b < n) :
    [a, b] <+ List.range n := by
  induction n with
  | zero => omega
  | succ m ih =>
    rw [List.range_succ]
    rcases Nat.lt_or_ge b m with h | h
    · exact (ih h).trans (List.sublist_append_left _ _)
    · have hbm : b = m := by omega
      subst hbm
      have h1 : [a] <+ List.range b := List.singleton_sublist.mpr (List.mem_range.mpr hab)
      exact List.Sublist.append h1 (List.Sublist.refl [b])

/-! ### Below the cutoff (`num ≤ 16`) `aquicksort` is its insertion-sort
epilogue: the partition loop requires `pr - pl > 15`, so the whole array
goes straight to the stable insertion sort. -/

theorem npyAargsort_small (v : List ℚ) (h : v.length ≤ 16) :
    npyAargsort v = foldlIns v (List.range v.length) := by
  unfold npyAargsort
  rw [show 4 * v.length + 16 = (4 * v.length + 15) + 1 from rfl]
  rw [aqsGo]
  rw [if_neg (by omega)]
  rw [aqsGo]
  unfold insertionSeg
  rcases Nat.eq_zero_or_pos v.length with h0 | h1
  · simp [h0, foldlIns]
  · rw [show v.length - 1 + 1 - 0 = v.length from by omega]
    rw [List.drop_zero, List.take_zero, List.nil_append,
      List.take_of_length_le (by simp),
      show v.length - 1 + 1 = v.length from by omega]
    simp

/-! ### The stable insertion sort: permutation, sortedness, stability -/

theorem foldl_orderedInsert_perm (v : List ℚ) (l acc : List ℕ) :
    l.foldl (fun acc i => acc.orderedInsert (rlt v) i) acc ~ acc ++ l := by
  induction l generalizing acc with
  | nil => simp
  | cons x t ih =>
    rw [List.foldl_cons]
    calc t.foldl (fun acc i => acc.orderedInsert (rlt v) i) (acc.orderedInsert (rlt v) x)
        ~ acc.orderedInsert (rlt v) x ++ t := ih _
      _ ~ (x :: acc) ++ t := (List.perm_orderedInsert _ x acc).append_right t
      _ ~ acc ++ x :: t := List.perm_middle.symm

theorem foldlIns_perm (v : List ℚ) (l : List ℕ) : foldlIns v l ~ l := by
  unfold foldlIns
  have h := foldl_orderedInsert_perm v l []
  simpa using h

theorem sorted_orderedInsert_rlt (v : List ℚ) (x : ℕ) (acc : List ℕ)
    (h : acc.Pairwise (keyLE v)) :
    (acc.orderedInsert (rlt v) x).Pairwise (keyLE v) := by
  induction acc with
  | nil => simp
  | cons y t ih =>
    rw [List.orderedInsert]
    obtain ⟨hyt, ht⟩ := List.pairwise_cons.mp h
    split
    · rename_i hxy
      rw [List.pairwise_cons]
      refine ⟨?_, h⟩
      intro b hb
      rcases List.mem_cons.mp hb with rfl | hbt
      · exact le_of_lt hxy
      · exact le_trans (le_of_lt hxy) (hyt b hbt)
    · rename_i hxy
      rw [List.pairwise_cons]
      refine ⟨?_, ih ht⟩
      intro b hb
      rcases (List.mem_orderedInsert (rlt v)).mp hb with rfl | hbt
      · exact le_of_not_lt hxy
      · exact hyt b hbt

theorem foldlIns_sorted_from (v : List ℚ) (l : List ℕ) : ∀ acc : List ℕ,
    acc.Pairwise (keyLE v) →
    (l.foldl (fun acc i => acc.orderedInsert (rlt v) i) acc).Pairwise (keyLE v) := by
  induction l with
  | nil => exact fun acc h => h
  | cons x t ih =>
    intro acc h
    rw [List.foldl_cons]
    exact ih _ (sorted_orderedInsert_rlt v x acc h)

theorem foldlIns_sorted (v : List ℚ) (l : List ℕ) :
    (foldlIns v l).Pairwise (keyLE v) :=
  foldlIns_sorted_from v l [] List.Pairwise.nil

theorem sublist_foldl_orderedInsert (v : List ℚ) (l : List ℕ) : ∀ s acc : List ℕ,
    s <+ acc → s <+ l.foldl (fun acc i => acc.orderedInsert (rlt v) i) acc := by
  induction l with
  | nil => exact fun s acc h => h
  | cons x t ih =>
    intro s acc h
    rw [List.foldl_cons]
    exact ih s _ (h.trans (List.sublist_orderedInsert x acc))

theorem pair_sublist_orderedInsert_tie (v : List ℚ) (a b : ℕ) (acc : List ℕ)
    (hs : acc.Pairwise (keyLE v)) (ha : a ∈ acc) (hnb : ¬ rlt v b a) :
    [a, b] <+ acc.orderedInsert (rlt v) b := by
  induction acc with
  | nil => simp at ha
  | cons y t ih =>
    rw [List.orderedInsert]
    obtain ⟨hyt, ht⟩ := List.pairwise_cons.mp hs
    split
    · rename_i hby
      exfalso
      rcases List.mem_cons.mp ha with rfl | hat
      · exact hnb hby
      · exact hnb (lt_of_lt_of_le hby (hyt a hat))
    · rcases List.mem_cons.mp ha with rfl | hat
      · exact List.Sublist.cons₂ _ (List.singleton_sublist.mpr
          ((List.mem_orderedInsert (rlt v)).mpr (Or.inl rfl)))
      · exact List.Sublist.cons _ (ih ht hat)

theorem pair_sublist_foldl_of_mem (v : List ℚ) (a b : ℕ)
    (heq : v.getD a 0 = v.getD b 0) : ∀ (l acc : List ℕ),
    acc.Pairwise (keyLE v) → a ∈ acc → b ∈ l →
    [a, b] <+ l.foldl (fun acc i => acc.orderedInsert (rlt v) i) acc := by
  intro l
  induction l with
  | nil =>
    intro acc _ _ hb
    simp at hb
  | cons x t ih =>
    intro acc hs ha hb
    rw [List.foldl_cons]
    rcases List.mem_cons.mp hb with rfl | hbt
    · have h1 : [a, b] <+ acc.orderedInsert (rlt v) b :=
        pair_sublist_orderedInsert_tie v a b acc hs ha (by rw [rlt, heq]; exact lt_irrefl _)
      exact sublist_foldl_orderedInsert v t _ _ h1
    · exact ih (acc.orderedInsert (rlt v) x) (sorted_orderedInsert_rlt v x acc hs)
        ((List.mem_orderedInsert (rlt v)).mpr (Or.inr ha)) hbt

theorem pair_sublist_foldlIns_from (v : List ℚ) (a b : ℕ)
    (heq : v.getD a 0 = v.getD b 0) : ∀ (l acc : List ℕ),
    acc.Pairwise (keyLE v) → [a, b] <+ l →
    [a, b] <+ l.foldl (fun acc i => acc.orderedInsert (rlt v) i) acc := by
  intro l
  induction l with
  | nil =>
    intro acc _ hs
    simp at hs
  | cons x t ih =>
    intro acc hacc hs
    rw [List.foldl_cons]
    cases hs with
    | cons _ h' => exact ih _ (sorted_orderedInsert_rlt v x acc hacc) h'
    | cons₂ _ h' =>
      exact pair_sublist_foldl_of_mem v a b heq t (acc.orderedInsert (rlt v) a)
        (sorted_orderedInsert_rlt v a acc hacc)
        ((List.mem_orderedInsert (rlt v)).mpr (Or.inl rfl))
        (List.singleton_sublist.mp h')

theorem pair_sublist_foldlIns (v : List ℚ) (a b : ℕ) (l : List ℕ)
    (hsub : [a, b] <+ l) (heq : v.getD a 0 = v.getD b 0) :
    [a, b] <+ foldlIns v l :=
  pair_sublist_foldlIns_from v a b heq l [] List.Pairwise.nil hsub

/-! ### `nargsortDesc` on frames below numpy's cutoff -/

theorem nargsortDesc_perm (v : List ℚ) (h16 : v.length ≤ 16) :
    nargsortDesc v ~ List.range v.length := by
  have hmap : (List.range v.length).map
      (fun i => ((List.range v.length).reverse).getD i 0) = (List.range v.length).reverse := by
    rw [List.map_congr_left (fun i hi => ridx_getD (List.mem_range.mp hi))]
    conv_rhs => rw [List.range_eq_range']
    rw [List.reverse_range']
    simp
  have hs : npyAargsort v.reverse ~ List.range v.length := by
    rw [npyAargsort_small v.reverse (by simpa using h16)]
    have h := foldlIns_perm v.reverse (List.range v.reverse.length)
    simpa using h
  calc ((npyAargsort v.reverse).map (fun i => ((List.range v.length).reverse).getD i 0)).reverse
      ~ (npyAargsort v.reverse).map (fun i => ((List.range v.length).reverse).getD i 0) :=
        List.reverse_perm _
    _ ~ (List.range v.length).map (fun i => ((List.range v.length).reverse).getD i 0) :=
        hs.map _
    _ = (List.range v.length).reverse := hmap
    _ ~ List.range v.length := List.reverse_perm _

theorem nargsortDesc_pairwise (v : List ℚ) (h16 : v.length ≤ 16) :
    (nargsortDesc v).Pairwise (fun a b => v.getD b 0 ≤ v.getD a 0) := by
  unfold nargsortDesc
  rw [List.pairwise_reverse, List.pairwise_map]
  rw [npyAargsort_small v.reverse (by simpa using h16)]
  have hs := foldlIns_sorted v.reverse (List.range v.reverse.length)
  refine List.Pairwise.imp_of_mem ?_ hs
  intro a b ha hb hr
  rw [(foldlIns_perm v.reverse (List.range v.reverse.length)).mem_iff, List.mem_range]
    at ha hb
  have ha' : a < v.length := by simpa using ha
  have hb' : b < v.length := by simpa using hb
  unfold keyLE at hr
  rw [getD_reverse_of_lt _ _ (by simpa using ha'), getD_reverse_of_lt _ _ (by simpa using hb')]
    at hr
  rw [ridx_getD ha', ridx_getD hb']
  exact hr

theorem nargsortDesc_stable (v : List ℚ) (h16 : v.length ≤ 16) (i j : ℕ) (hij : i < j)
    (hj : j < v.length) (hkey : v.getD i 0 = v.getD j 0) : [i, j] <+ nargsortDesc v := by
  have hi : i < v.length := lt_trans hij hj
  have hi' : v.length - 1 - i < v.length := Nat.sub_one_sub_lt_of_lt hi
  have hj' : v.length - 1 - j < v.length := Nat.sub_one_sub_lt_of_lt hj
  have hlt : v.length - 1 - j < v.length - 1 - i := by omega
  have hpair : [v.length - 1 - j, v.length - 1 - i] <+ List.range v.length :=
    pair_sublist_range hlt hi'
  have hr : v.reverse.getD (v.length - 1 - j) 0 = v.reverse.getD (v.length - 1 - i) 0 := by
    rw [getD_reverse_of_lt _ _ (by simpa using hj'), getD_reverse_of_lt _ _ (by simpa using hi')]
    have e1 : v.length - 1 - (v.length - 1 - j) = j := by omega
    have e2 : v.length - 1 - (v.length - 1 - i) = i := by omega
    rw [e1, e2, ← hkey]
  have hsub : [v.length - 1 - j, v.length - 1 - i] <+ npyAargsort v.reverse := by
    rw [npyAargsort_small v.reverse (by simpa using h16)]
    refine pair_sublist_foldlIns v.reverse _ _ _ ?_ hr
    simpa using hpair
  have hmap := hsub.map (fun x => ((List.range v.length).reverse).getD x 0)
  simp only [List.map_cons, List.map_nil] at hmap
  rw [ridx_getD hj', ridx_getD hi'] at hmap
  have e1 : v.length - 1 - (v.length - 1 - j) = j := by omega
  have e2 : v.length - 1 - (v.length - 1 - i) = i := by omega
  rw [e1, e2] at hmap
  have hrev := hmap.reverse
  simpa [nargsortDesc] using hrev

theorem addRanks_snd {α : Type} (l : List α) :
    (addRanks l).map Prod.snd = List.range' 1 l.length := by
  unfold addRanks
  exact List.map_snd_zip _ _ (by simp)

/-! ## genbi.py — string helpers

Python string methods are embedded as structural functions over the
character list of the string (`String.data`), so that every definition
evaluates inside the kernel; each helper's doc comment names the Python
method it models. -/

/-- Python `str.lower()`; every string the script lowercases is ASCII,
where `Char.toLower` agrees. -/
def toLowerStr (s : String) : String := String.mk (s.data.map Char.toLower)

/-- Contiguous-sublist test on character lists. -/
def isInfixList : List Char → List Char → Bool
  | pat, [] => pat.isEmpty
  | pat, c :: t => pat.isPrefixOf (c :: t) || isInfixList pat t

/-- Python `pat in s` (contiguous substring test). -/
def strContains (s pat : String) : Bool := isInfixList pat.data s.data

/-- Python `c in s` for a single character. -/
def containsChar (s : String) (c : Char) : Bool := s.data.contains c

/-- Python `s.startswith(pre)`. -/
def startsWithStr (s pre : String) : Bool := pre.data.isPrefixOf s.data

def splitOnCharAux (c : Char) : List Char → List Char → List String
  | [], cur => [String.mk cur.reverse]
  | ch :: rest, cur =>
    if ch = c then String.mk cur.reverse :: splitOnCharAux c rest []
    else splitOnCharAux c rest (ch :: cur)

/-- Python `s.split(c)` for a one-character separator (the only separators
the script splits on are `':'`, `','`, `'.'` and `' '`); always returns a
nonempty list, `[""]` on the empty string, as in Python. -/
def splitOnChar (c : Char) (s : String) : List String := splitOnCharAux c s.data []

/-- Python `s.strip()` (`Char.isWhitespace` covers the whitespace the
data can contain). -/
def stripStr (s : String) : String :=
  String.mk (((s.data.dropWhile Char.isWhitespace).reverse.dropWhile Char.isWhitespace).reverse)

/-! ## genbi.py — gene variants and query construction -/

/-- The literal `gene_variants` list (genbi.py lines 17-22); the comment
in the source marks the first group as COI variants and the second as
CYTB variants. -/
def gene_variants : List String :=
  ["cytochrome oxidase subunit 1", "cytochrome c oxidase I", "COI", "COX1", "MTCO1",
   "MT-CO1", "cytochrome c oxidase subunit I", "coi", "(coi)", "(coi) gene",
   "cytochrome oxidase subunit 1 (COI) gene",
   "cytochrome b", "Cytochrome b", "CYTB", "cytb", "cytochrome B", "MT-CYB", "mt-cyb",
   "cytochrome b gene", "(cytb)", "(cytb) gene", "mt-Cytb"]

/-- `coi_variants = gene_variants[:11]` (line 24). -/
def coi_variants : List String := gene_variants.take 11

/-- `cytb_variants = gene_variants[11:]` (line 25). -/
def cytb_variants : List String := gene_variants.drop 11

/-- Embeds the query construction of `search_genbank` (genbi.py lines
139-147): a variant containing a space is split into terms, each tagged
`[All Fields]` and joined with `" AND "`; a single-word variant becomes
`variant[Gene]`; both forms end with `AND species[ORGN]`.  (`str.split()`
splits on whitespace runs; every variant contains only single spaces,
where it agrees with splitting on `' '`.) -/
def speciesQuery (gene_variant species : String) : String :=
  if containsChar gene_variant ' ' then
    String.intercalate " AND "
        ((splitOnChar ' ' gene_variant).map (fun t => t ++ "[All Fields]")) ++
      " AND " ++ species ++ "[ORGN]"
  else gene_variant ++ "[Gene] AND " ++ species ++ "[ORGN]"

/-- Embeds `f"{name}[ORGN] AND {gene_variant}[Gene]"`, the query shape
shared by `search_genbank_directly` (line 287), `search_genbank_family`
(line 338) and `search_genbank_genus` (line 387). -/
def orgnGeneQuery (name gene_variant : String) : String :=
  name ++ "[ORGN] AND " ++ gene_variant ++ "[Gene]"

/-! ## genbi.py — GenBank search strategies

The external `esearch` endpoint is modelled by a function
`db : String → List ℕ` giving the full result-id list of each query
string; `esearch(term=q, retmax=m, retstart=s)` then reports
`Count = (db q).length` and the id page `(db q).drop s |>.take m`.
Ids are opaque to the search code (never inspected, only collected), so
they are modelled as naturals. -/

/-- Embeds the pagination loop of `search_genbank` (genbi.py lines
150-163): one `esearch` at offset `retstart` with `retmax = 100` (the
default, never overridden), then `while Count > retstart + retmax` the
offset advances by 100 and the next page is fetched.  Returns the
collected ids together with the final value of `retstart`, which in
Python is a function-level variable that persists across the gene-variant
loop. -/
def collectPages (ids : List ℕ) (retstart : ℕ) : List ℕ × ℕ :=
  if h : retstart + 100 < ids.length then
    ((ids.drop retstart).take 100 ++ (collectPages ids (retstart + 100)).1,
      (collectPages ids (retstart + 100)).2)
  else ((ids.drop retstart).take 100, retstart)
termination_by ids.length - retstart
decreasing_by all_goals omega

/-- One iteration of the gene-variant loop of `search_genbank` (lines
138-168): page through the current variant's results starting from the
CURRENT `retstart` in the state, append the tagged ids, and carry the
final offset over to the next variant. -/
def sgStep (db : String → List ℕ) (species method : String)
    (st : List (ℕ × String) × ℕ) (v : String) : List (ℕ × String) × ℕ :=
  (st.1 ++ ((collectPages (db (speciesQuery v species)) st.2).1).map (fun i => (i, method)),
    (collectPages (db (speciesQuery v species)) st.2).2)

/-- Embeds `search_genbank` (genbi.py lines 135-170): for each gene
variant, page through the query's results starting from the current
`retstart` — the offset is never reset between variants — and tag every
collected id with `method`. -/
def search_genbank (db : String → List ℕ) (species method : String) : List (ℕ × String) :=
  (gene_variants.foldl (sgStep db species method) ([], 0)).1

/-- Models Python `set.update` over an id list: append the ids not already
present.  Only membership (not order) of the resulting collection is
relied on anywhere, matching the unspecified iteration order of a Python
set. -/
def insertNew (acc : List ℕ) (l : List ℕ) : List ℕ :=
  l.foldl (fun a x => if x ∈ a then a else a ++ [x]) acc

/-- Embeds `search_genbank_directly` (genbi.py lines 280-301): ONE
`esearch` per gene variant with `retmax=10000` and no pagination loop —
a query with more than 10000 results contributes only its first 10000
ids — accumulated into a set and tagged `'Direct GenBank Search'`. -/
def search_genbank_directly (db : String → List ℕ) (order_name : String) :
    List (ℕ × String) :=
  (gene_variants.foldl
      (fun acc v => insertNew acc ((db (orgnGeneQuery order_name v)).take 10000)) []).map
    (fun i => (i, "Direct GenBank Search"))

/-- Embeds `search_genbank_family` (genbi.py lines 331-350): same
single-request shape, tag `'Family Search'`. -/
def search_genbank_family (db : String → List ℕ) (family_name : String) :
    List (ℕ × String) :=
  (gene_variants.foldl
      (fun acc v => insertNew acc ((db (orgnGeneQuery family_name v)).take 10000)) []).map
    (fun i => (i, "Family Search"))

/-- Embeds `search_genbank_genus` (genbi.py lines 380-399): same
single-request shape, tag `'Genus Search'`. -/
def search_genbank_genus (db : String → List ℕ) (genus_name : String) :
    List (ℕ × String) :=
  (gene_variants.foldl
      (fun acc v => insertNew acc ((db (orgnGeneQuery genus_name v)).take 10000)) []).map
    (fun i => (i, "Genus Search"))

/-! ## genbi.py — the species/synonym loop of `main` -/

/-- One resolved species: scientific name plus synonym list (the
`especie_info` dict built at genbi.py lines 73-77). -/
structure Especie where
  nombre_cientifico : String
  sinonimias : List String
deriving DecidableEq, Repr

/-- One step of the `nombres_buscados` discipline (lines 440-442 and
459-461): search a name only if it was not searched before, and record
it.  State: (the `nombres_buscados` set, the names searched so far in
order). -/
def searchNameStep (st : List String × List String) (name : String) :
    List String × List String :=
  if name ∈ st.1 then st else (name :: st.1, st.2 ++ [name])

/-- Embeds the GenBank search loop of `main` (genbi.py lines 434-474) at
the level of WHICH names `search_genbank` is called for, in order.  The
species `for` loop (line 438) searches each not-yet-searched scientific
name.  The synonym `for` loop (line 458) is indented at the same level as
the species loop, i.e. OUTSIDE it: it runs once, after the species loop
finishes, over `especie['sinonimias']` where `especie` is the Python loop
variable, which then still holds the LAST species of the list.  (On an
empty species list line 458 would raise `NameError`; the model returns
the species-loop result, an input no claim exercises.) -/
def speciesLoopSearches (especies : List Especie) : List String :=
  let afterSpecies :=
    especies.foldl (fun st e => searchNameStep st e.nombre_cientifico) ([], [])
  match especies.getLast? with
  | none => afterSpecies.2
  | some lastE => (lastE.sinonimias.foldl searchNameStep afterSpecies).2

/-! ### Pagination lemmas -/

theorem collectPages_fst (ids : List ℕ) (retstart : ℕ) :
    (collectPages ids retstart).1 = ids.drop retstart := by
  rw [collectPages]
  split
  · rename_i h
    rw [collectPages_fst ids (retstart + 100)]
    conv_rhs => rw [← List.take_append_drop 100 (ids.drop retstart), List.drop_drop]
  · rename_i h
    have hle : ids.length - retstart ≤ 100 := by omega
    rw [List.take_of_length_le (by simpa using hle)]
termination_by ids.length - retstart
decreasing_by omega

theorem mem_insertNew (l acc : List ℕ) (x : ℕ) :
    x ∈ insertNew acc l ↔ x ∈ acc ∨ x ∈ l := by
  induction l generalizing acc with
  | nil => simp [insertNew]
  | cons y t ih =>
    show x ∈ insertNew (if y ∈ acc then acc else acc ++ [y]) t ↔ _
    rw [ih]
    by_cases hy : y ∈ acc
    · simp only [if_pos hy, List.mem_cons]
      constructor
      · rintro (h | h)
        · exact Or.inl h
        · exact Or.inr (Or.inr h)
      · rintro (h | rfl | h)
        · exact Or.inl h
        · exact Or.inl hy
        · exact Or.inr h
    · simp only [if_neg hy, List.mem_append, List.mem_singleton, List.mem_cons]
      tauto

theorem mem_strategy_fold (db : String → List ℕ) (name : String) (vs : List String)
    (acc : List ℕ) (x : ℕ) :
    x ∈ vs.foldl (fun a v => insertNew a ((db (orgnGeneQuery name v)).take 10000)) acc ↔
      x ∈ acc ∨ ∃ v ∈ vs, x ∈ (db (orgnGeneQuery name v)).take 10000 := by
  induction vs generalizing acc with
  | nil => simp
  | cons v t ih =>
    simp only [List.foldl_cons]
    rw [ih, mem_insertNew]
    simp only [List.mem_cons]
    constructor
    · rintro ((h | h) | ⟨w, hw, hx⟩)
      · exact Or.inl h
      · exact Or.inr ⟨v, Or.inl rfl, h⟩
      · exact Or.inr ⟨w, Or.inr hw, hx⟩
    · rintro (h | ⟨w, (rfl | hw), hx⟩)
      · exact Or.inl (Or.inl h)
      · exact Or.inl (Or.inr hx)
      · exact Or.inr ⟨w, hw, hx⟩

theorem mem_search_genbank_directly (db : String → List ℕ) (order_name : String)
    (x : ℕ × String) :
    x ∈ search_genbank_directly db order_name ↔
      x.2 = "Direct GenBank Search" ∧
        ∃ v ∈ gene_variants, x.1 ∈ (db (orgnGeneQuery order_name v)).take 10000 := by
  unfold search_genbank_directly
  rw [List.mem_map]
  constructor
  · rintro ⟨i, hi, rfl⟩
    rw [mem_strategy_fold] at hi
    rcases hi with h | h
    · simp at h
    · exact ⟨rfl, h⟩
  · rintro ⟨h2, hv⟩
    refine ⟨x.1, ?_, ?_⟩
    · rw [mem_strategy_fold]
      exact Or.inr hv
    · obtain ⟨a, b⟩ := x
      simp only at h2
      rw [h2]

theorem mem_search_genbank_family (db : String → List ℕ) (family_name : String)
    (x : ℕ × String) :
    x ∈ search_genbank_family db family_name ↔
      x.2 = "Family Search" ∧
        ∃ v ∈ gene_variants, x.1 ∈ (db (orgnGeneQuery family_name v)).take 10000 := by
  unfold search_genbank_family
  rw [List.mem_map]
  constructor
  · rintro ⟨i, hi, rfl⟩
    rw [mem_strategy_fold] at hi
    rcases hi with h | h
    · simp at h
    · exact ⟨rfl, h⟩
  · rintro ⟨h2, hv⟩
    refine ⟨x.1, ?_, ?_⟩
    · rw [mem_strategy_fold]
      exact Or.inr hv
    · obtain ⟨a, b⟩ := x
      simp only at h2
      rw [h2]

theorem mem_search_genbank_genus (db : String → List ℕ) (genus_name : String)
    (x : ℕ × String) :
    x ∈ search_genbank_genus db genus_name ↔
      x.2 = "Genus Search" ∧
        ∃ v ∈ gene_variants, x.1 ∈ (db (orgnGeneQuery genus_name v)).take 10000 := by
  unfold search_genbank_genus
  rw [List.mem_map]
  constructor
  · rintro ⟨i, hi, rfl⟩
    rw [mem_strategy_fold] at hi
    rcases hi with h | h
    · simp at h
    · exact ⟨rfl, h⟩
  · rintro ⟨h2, hv⟩
    refine ⟨x.1, ?_, ?_⟩
    · rw [mem_strategy_fold]
      exact Or.inr hv
    · obtain ⟨a, b⟩ := x
      simp only at h2
      rw [h2]

theorem sg_foldl_mono (db : String → List ℕ) (species method : String) (x : ℕ × String)
    (vs : List String) (st : List (ℕ × String) × ℕ) (h : x ∈ st.1) :
    x ∈ (vs.foldl (sgStep db species method) st).1 := by
  induction vs generalizing st with
  | nil => exact h
  | cons v t ih =>
    rw [List.foldl_cons]
    exact ih _ (List.mem_append_left _ h)

/-- Every id of the first gene variant's query is collected by
`search_genbank`: the first variant is processed at `retstart = 0`, where
the pagination loop exhausts the reported total, and later variants only
append to the accumulator. -/
theorem search_genbank_first_variant (db : String → List ℕ) (species method : String)
    (x : ℕ) (hx : x ∈ db (speciesQuery "cytochrome oxidase subunit 1" species)) :
    (x, method) ∈ search_genbank db species method := by
  unfold search_genbank
  have e : gene_variants = "cytochrome oxidase subunit 1" :: gene_variants.tail := rfl
  rw [e, List.foldl_cons]
  apply sg_foldl_mono
  show (x, method) ∈
    ([] ++ ((collectPages (db (speciesQuery "cytochrome oxidase subunit 1" species)) 0).1).map
      (fun i => (i, method)))
  rw [collectPages_fst, List.drop_zero, List.nil_append]
  exact List.mem_map.mpr ⟨x, hx, rfl⟩

/-! ## genbi.py — `extract_info` and the dedup registry

A fetched Biopython `SeqRecord` is modelled with the fields the code
reads; a feature's `qualifiers` dict maps qualifier keys to value lists,
modelled as an association list.  The global dict `info_secuencias` is
modelled by explicit state passing (`Registry` in, `Registry` out); the
one Python statement that mutates it (line 276) corresponds to the one
branch below that returns an extended registry.  An uncaught Python
exception is modelled by `Except.error`. -/

/-- One Biopython feature: `feature.type` and `feature.qualifiers`. -/
structure Feature where
  type : String
  qualifiers : List (String × List String)
deriving DecidableEq, Repr

/-- The fields of a fetched record that `extract_info` reads:
`record.id`, `record.annotations.get('organism', '')`,
`record.description`, `record.features`, `len(record.seq)`. -/
structure SeqRecord where
  id : String
  organism : String
  description : String
  features : List Feature
  seqLength : ℕ
deriving DecidableEq, Repr

/-- The 13-element `info` list built at genbi.py line 273, with the
column names of `main` (line 420). -/
structure Row where
  accession : String
  speciesName : String
  searchMethod : String
  gene : String
  specimenVoucher : String
  country : String
  state : String
  locality : String
  latitude : String
  longitude : String
  numBases : ℕ
  releaseDate : String
  boldCode : String
deriving DecidableEq, Repr

/-- The global dict `info_secuencias` (accession → info), as an insertion-
ordered association list. -/
abbrev Registry := List (String × Row)

/-- Python `accession in info_secuencias` (key membership, line 181). -/
def registryContains (reg : Registry) (acc : String) : Bool :=
  reg.any (fun p => p.1 == acc)

/-- The Python exceptions `extract_info` can raise that the claims track:
`record.features[0]` on an empty feature list (lines 207/221). -/
inductive ExtractError where
  | indexError
deriving DecidableEq, Repr

/-- `feature.qualifiers.get(k)`: association-list lookup. -/
def qualLookup (f : Feature) (k : String) : Option (List String) :=
  (f.qualifiers.find? (fun p => p.1 == k)).map Prod.snd

/-- `feature.qualifiers.get(k, ['NA'])[0]`.  Biopython qualifier value
lists are nonempty, so the `[0]` on a present key is modelled by
`headD "NA"` (the default branch also yields `"NA"`). -/
def qualFirst (f : Feature) (k : String) : String :=
  ((qualLookup f k).getD ["NA"]).headD "NA"

/-- Specimen-voucher extraction (genbi.py lines 199-203): the
`specimen_voucher` qualifier of the first `source` feature, else `'NA'`. -/
def specimen_voucher_of (features : List Feature) : String :=
  match features.find? (fun f => f.type == "source") with
  | none => "NA"
  | some f => qualFirst f "specimen_voucher"

/-- Country/state/locality extraction (genbi.py lines 206-218) from the
FIRST feature's `country` qualifier (guarded by key presence and list
truthiness): `location.split(':')` gives the country (part 0, stripped);
if a second part exists it is `.split(',')` into the state (part 0,
stripped) and, if more parts exist, the locality
(`', '.join(parts[1:]).strip()`). -/
def geoFields (f0 : Feature) : String × String × String :=
  match qualLookup f0 "country" with
  | some (location :: _) =>
    let country_parts := splitOnChar ':' location
    let country := stripStr (country_parts.headD "")
    if 1 < country_parts.length then
      let state_locality_parts := splitOnChar ',' (country_parts.getD 1 "")
      let state := stripStr (state_locality_parts.headD "")
      if 1 < state_locality_parts.length then
        (country, state, stripStr (String.intercalate ", " (state_locality_parts.drop 1)))
      else (country, state, "NA")
    else (country, "NA", "NA")
  | _ => ("NA", "NA", "NA")

/-- The character class `[0-9.-]` of the lat/lon regex (line 222). -/
def isNumTok (c : Char) : Bool := c.isDigit || c == '.' || c == '-'

/-- Embeds `re.match(r'([0-9.-]+ [NS]) ([0-9.-]+ [WE])', lat_lon)`
(genbi.py lines 222-224) with `group(1)`/`group(2)`.  The pattern is
anchored at the start, allows trailing text, and is deterministic: the
character class excludes the space that must follow each number, so no
backtracking can produce a different match. -/
def latLonMatch (s : String) : Option (String × String) :=
  let cs := s.data
  let num1 := cs.takeWhile isNumTok
  match num1, cs.dropWhile isNumTok with
  | [], _ => none
  | _ :: _, ' ' :: d1 :: ' ' :: rest2 =>
    if d1 = 'N' ∨ d1 = 'S' then
      let num2 := rest2.takeWhile isNumTok
      match num2, rest2.dropWhile isNumTok with
      | [], _ => none
      | _ :: _, ' ' :: d2 :: _ =>
        if d2 = 'W' ∨ d2 = 'E' then
          some (String.mk (num1 ++ [' ', d1]), String.mk (num2 ++ [' ', d2]))
        else none
      | _, _ => none
    else none
  | _, _ => none

/-- Gene classification by case-insensitive substring match of the
description (genbi.py lines 239-247, identical in logic to the dead first
computation at lines 188-194 whose result is overwritten at line 238
before any use): CYTB variants first, then COI variants, else
`'Unknown'`. -/
def classifyGene (description : String) : String :=
  if cytb_variants.any (fun v => strContains (toLowerStr description) (toLowerStr v))
  then "CYTB"
  else if coi_variants.any (fun v => strContains (toLowerStr description) (toLowerStr v))
  then "COI"
  else "Unknown"

/-- The literal `unwanted_terms` denylist (genbi.py line 250). -/
def unwanted_terms : List String :=
  ["von willebrand factor", "nad", "NADH", "12s", "16s", "rRNA", "tRNA", "ribosomal",
   "COX2", "COXII", "COXIII", "COX3"]

/-- Collection-date extraction (genbi.py lines 256-260): the
`collection_date` qualifier of the first `source` feature that has one,
else `'NA'`. -/
def release_date_of (features : List Feature) : String :=
  match features.find? (fun f => f.type == "source" && (qualLookup f "collection_date").isSome) with
  | some f => qualFirst f "collection_date"
  | none => "NA"

/-- BOLD-code extraction (genbi.py lines 263-270): for EVERY feature with
a `db_xref` qualifier (the `break` only leaves the inner xref loop), the
first xref starting with `'BOLD:'` overwrites the running value with
`xref.split(':')[1].split('.')[0]`. -/
def bold_code_of (features : List Feature) : String :=
  features.foldl
    (fun acc f =>
      match qualLookup f "db_xref" with
      | some xrefs =>
        match xrefs.find? (fun x => startsWithStr x "BOLD:") with
        | some x => (splitOnChar '.' ((splitOnChar ':' x).getD 1 "")).headD ""
        | none => acc
      | none => acc)
    "NA"

/-- Synonym-mismatch flagging (genbi.py lines 184-186): if the discovery
method is `'From ITIS'` and the record's own organism annotation does not
case-insensitively equal the queried name, a `'*'` is appended. -/
def flaggedName (organism valid_species_name search_method : String) : String :=
  if search_method = "From ITIS" ∧ toLowerStr organism ≠ toLowerStr valid_species_name
  then valid_species_name ++ "*" else valid_species_name

/-- `lat_lon_match.group(1) if lat_lon_match else 'NA'` (line 223). -/
def latOf (m : Option (String × String)) : String :=
  match m with | some p => p.1 | none => "NA"

/-- `lat_lon_match.group(2) if lat_lon_match else 'NA'` (line 224). -/
def lonOf (m : Option (String × String)) : String :=
  match m with | some p => p.2 | none => "NA"

/-- The `info` list built at genbi.py line 273 once every filter has
passed.  Python assigns the local variables (species name, voucher,
geography, lat/lon, gene) before/between the filters but only reads them
here, so the row construction is factored out; the expressions are those
of lines 184-270. -/
def buildRow (record : SeqRecord) (valid_species_name search_method : String)
    (f0 : Feature) : Row :=
  { accession := record.id
    speciesName := flaggedName record.organism valid_species_name search_method
    searchMethod := search_method
    gene := classifyGene record.description
    specimenVoucher := specimen_voucher_of record.features
    country := (geoFields f0).1
    state := (geoFields f0).2.1
    locality := (geoFields f0).2.2
    latitude := latOf (latLonMatch (qualFirst f0 "lat_lon"))
    longitude := lonOf (latLonMatch (qualFirst f0 "lat_lon"))
    numBases := record.seqLength
    releaseDate := release_date_of record.features
    boldCode := bold_code_of record.features }

/-- Embeds `extract_info` (genbi.py lines 178-278), state-passing the
global dict.  Control flow in source order: dedup no-op return (181-182);
geography and lat/lon read `record.features[0]`, raising `IndexError` on
an empty feature list (lines 206-224, before any length filter); the
`< 590` lower length filter (230-231); the metagenome upper filter, whose
guard compares the lowercased answer with the NON-lowercase literal
`'No'` (234-236); gene reclassification with the CYTB `[1000, 1200]`
band (238-247); the unwanted-term denylist (250-253); then the row is
built, registered, and returned (273-278). -/
def extract_info (registry : Registry) (record : SeqRecord) (valid_species_name : String)
    (search_method : String) (incluir_mitocondriales : String) :
    Except ExtractError (Option Row × Registry) :=
  if registryContains registry record.id then .ok (none, registry)
  else
    match record.features with
    | [] => .error .indexError
    | f0 :: _ =>
      if record.seqLength < 590 then .ok (none, registry)
      else if toLowerStr incluir_mitocondriales = "No" ∧ 1300 < record.seqLength then
        .ok (none, registry)
      else if classifyGene record.description = "CYTB" ∧
          (record.seqLength < 1000 ∨ 1200 < record.seqLength) then .ok (none, registry)
      else if unwanted_terms.any
          (fun t => strContains (toLowerStr record.description) (toLowerStr t)) then
        .ok (none, registry)
      else
        .ok (some (buildRow record valid_species_name search_method f0),
          registry ++ [(record.id, buildRow record valid_species_name search_method f0)])

/-- Models the per-accession processing loop shared by the four call
sites of `extract_info` in `main` (genbi.py lines 444-453, 479-487,
494-502, 510-518): each record is processed inside `try/except`; an
exception is printed and the loop continues with the next record; an
accepted row is appended to the output.  Records are modelled
post-`fetch_sequence`, each carrying the `valid_species_name` and
`search_method` arguments of its call site. -/
def processRecords (registry : Registry) (recs : List (SeqRecord × String × String))
    (incluir_mitocondriales : String) : Registry × List Row :=
  match recs with
  | [] => (registry, [])
  | (rec, vsn, sm) :: rest =>
    match extract_info registry rec vsn sm incluir_mitocondriales with
    | .error _ => processRecords registry rest incluir_mitocondriales
    | .ok (none, reg') => processRecords reg' rest incluir_mitocondriales
    | .ok (some row, reg') =>
      let r := processRecords reg' rest incluir_mitocondriales
      (r.1, row :: r.2)

/-! ### `extract_info` characterization lemmas -/

theorem extract_info_dup (reg : Registry) (rec : SeqRecord) (vsn sm inc : String)
    (h : registryContains reg rec.id = true) :
    extract_info reg rec vsn sm inc = .ok (none, reg) := by
  unfold extract_info
  rw [if_pos h]

theorem extract_info_empty_features (reg : Registry) (rec : SeqRecord) (vsn sm inc : String)
    (hfeat : rec.features = []) (hfresh : registryContains reg rec.id = false) :
    extract_info reg rec vsn sm inc = .error .indexError := by
  unfold extract_info
  rw [if_neg (by simp [hfresh]), hfeat]

theorem extract_info_none_eq (reg : Registry) (rec : SeqRecord) (vsn sm inc : String)
    (reg' : Registry) (h : extract_info reg rec vsn sm inc = .ok (none, reg')) :
    reg' = reg := by
  unfold extract_info at h
  split at h
  · simp only [Except.ok.injEq, Prod.mk.injEq] at h
    exact h.2.symm
  · split at h
    · simp at h
    · split at h
      · simp only [Except.ok.injEq, Prod.mk.injEq] at h
        exact h.2.symm
      · split at h
        · simp only [Except.ok.injEq, Prod.mk.injEq] at h
          exact h.2.symm
        · split at h
          · simp only [Except.ok.injEq, Prod.mk.injEq] at h
            exact h.2.symm
          · split at h
            · simp only [Except.ok.injEq, Prod.mk.injEq] at h
              exact h.2.symm
            · simp at h

theorem extract_info_some_spec (reg : Registry) (rec : SeqRecord) (vsn sm inc : String)
    (row : Row) (reg' : Registry)
    (h : extract_info reg rec vsn sm inc = .ok (some row, reg')) :
    row.accession = rec.id ∧ row.numBases = rec.seqLength ∧
    registryContains reg rec.id = false ∧
    reg' = reg ++ [(rec.id, row)] ∧
    590 ≤ rec.seqLength ∧
    row.gene = classifyGene rec.description ∧
    (row.gene = "CYTB" → 1000 ≤ rec.seqLength ∧ rec.seqLength ≤ 1200) := by
  unfold extract_info at h
  split at h
  · simp at h
  · rename_i hdup
    split at h
    · simp at h
    · split at h
      · simp at h
      · rename_i h590
        split at h
        · simp at h
        · split at h
          · simp at h
          · rename_i hband
            split at h
            · simp at h
            · simp only [Except.ok.injEq, Prod.mk.injEq, Option.some.injEq] at h
              obtain ⟨hrow, hreg⟩ := h
              subst hrow
              refine ⟨rfl, rfl, by simpa using hdup, hreg.symm, by omega, rfl, ?_⟩
              intro hg
              rcases Decidable.em (rec.seqLength < 1000 ∨ 1200 < rec.seqLength) with hb | hb
              · exact absurd ⟨hg, hb⟩ hband
              · push_neg at hb
                omega

theorem processRecords_rows_spec (inc : String)
    (recs : List (SeqRecord × String × String)) : ∀ reg : Registry,
    ((processRecords reg recs inc).2.map Row.accession).Nodup ∧
      ∀ row ∈ (processRecords reg recs inc).2,
        registryContains reg row.accession = false := by
  induction recs with
  | nil =>
    intro reg
    constructor
    · simp [processRecords]
    · intro row hrow
      simp [processRecords] at hrow
  | cons rc rest ih =>
    intro reg
    obtain ⟨rec, vsn, sm⟩ := rc
    cases hE : extract_info reg rec vsn sm inc with
    | error e =>
      have heq : processRecords reg ((rec, vsn, sm) :: rest) inc =
          processRecords reg rest inc := by
        simp only [processRecords, hE]
      rw [heq]
      exact ih reg
    | ok val =>
      obtain ⟨res, reg'⟩ := val
      cases res with
      | none =>
        have hreg : reg' = reg := extract_info_none_eq _ _ _ _ _ _ hE
        have heq : processRecords reg ((rec, vsn, sm) :: rest) inc =
            processRecords reg' rest inc := by
          simp only [processRecords, hE]
        rw [heq, hreg]
        exact ih reg
      | some row =>
        obtain ⟨hacc, _, hfresh, hreg', _, _, _⟩ := extract_info_some_spec _ _ _ _ _ _ _ hE
        have heq : processRecords reg ((rec, vsn, sm) :: rest) inc =
            ((processRecords reg' rest inc).1, row :: (processRecords reg' rest inc).2) := by
          simp only [processRecords, hE]
        rw [heq]
        obtain ⟨ihnd, ihfresh⟩ := ih reg'
        constructor
        · simp only [List.map_cons, List.nodup_cons]
          refine ⟨?_, ihnd⟩
          intro hmem
          rw [List.mem_map] at hmem
          obtain ⟨r', hr', hacc'⟩ := hmem
          have hc := ihfresh r' hr'
          rw [hacc', hacc, hreg'] at hc
          simp [registryContains] at hc
        · intro r hr
          rcases List.mem_cons.mp hr with rfl | hr'
          · rw [hacc]
            exact hfresh
          · have hc := ihfresh r hr'
            rw [hreg'] at hc
            simp only [registryContains, List.any_append, Bool.or_eq_false_iff] at hc
            exact hc.1

/-! ## Concrete inputs used by the claim witnesses and counterexamples -/

/-- A typical `source` feature with voucher, country, lat/lon, date and a
BOLD cross reference. -/
def exFeature : Feature :=
  { type := "source"
    qualifiers := [("specimen_voucher", ["MX123"]),
                   ("country", ["Mexico: Sonora, Hermosillo"]),
                   ("lat_lon", ["29.08 N 110.96 W"]),
                   ("collection_date", ["2010-05-04"]),
                   ("db_xref", ["taxon:12345", "BOLD:AAA1234.1"])] }

/-- A 1500 bp COI record (clean description, fresh accession). -/
def exRecord1500 : SeqRecord :=
  { id := "AB123456"
    organism := "Testus examplus"
    description := "Testus examplus cytochrome c oxidase subunit I (COI) gene"
    features := [exFeature]
    seqLength := 1500 }

/-- The row `extract_info` produces for `exRecord1500`. -/
def exRow1500 : Row :=
  { accession := "AB123456", speciesName := "Testus examplus", searchMethod := "From ITIS",
    gene := "COI", specimenVoucher := "MX123", country := "Mexico", state := "Sonora",
    locality := "Hermosillo", latitude := "29.08 N", longitude := "110.96 W",
    numBases := 1500, releaseDate := "2010-05-04", boldCode := "AAA1234" }

/-- An 1100 bp CYTB record (inside the `[1000, 1200]` band). -/
def exRecordCytb : SeqRecord :=
  { id := "CY111111"
    organism := "Testus examplus"
    description := "Testus examplus cytochrome b (cytb) gene"
    features := [exFeature]
    seqLength := 1100 }

/-- The row `extract_info` produces for `exRecordCytb`. -/
def exRowCytb : Row :=
  { accession := "CY111111", speciesName := "Testus examplus", searchMethod := "From ITIS",
    gene := "CYTB", specimenVoucher := "MX123", country := "Mexico", state := "Sonora",
    locality := "Hermosillo", latitude := "29.08 N", longitude := "110.96 W",
    numBases := 1100, releaseDate := "2010-05-04", boldCode := "AAA1234" }

/-- A fetched record whose feature list is empty (its accession matches
the key of `exRow1500`). -/
def emptyFeatRecord : SeqRecord :=
  { id := "AB123456", organism := "X", description := "d", features := [], seqLength := 700 }

/-- A GenBank model in which one direct-search query reports 10001 ids. -/
def exDb : String → List ℕ := fun q =>
  if q = orgnGeneQuery "Ordertaxon" "COI" then List.range 10001 else []

/-- A GenBank model in which the first gene variant's species query
reports a single id. -/
def exDb2 : String → List ℕ := fun q =>
  if q = speciesQuery "cytochrome oxidase subunit 1" "Testus examplus" then [7] else []

/-- A 17-row `final_score` column with every row tied at 3 (the score of
an all-metrics-missing row): one row beyond numpy's 16-entry
insertion-sort cutoff, so `aquicksort` partitions it. -/
def vEx17 : List ℚ := List.replicate 17 3

/-! ## Claim theorems -/

/-- C1: the spec says that when the caller requested mitochondrial/
metagenome exclusion (answered 'No'), `extract_info` rejects every record
longer than 1300 bp.  The guard at genbi.py line 234 compares
`incluir_mitocondriales.lower()` with the capitalized literal `'No'`,
which no lowercased string equals (shown here for both the raw answers
`"no"` and `"No"`), so the upper filter never fires: with exclusion
requested, a fresh 1500 bp COI record is accepted and registered. -/
theorem C1_upper_filter_never_fires :
    toLowerStr "no" ≠ "No" ∧ toLowerStr "No" ≠ "No" ∧
    extract_info [] exRecord1500 "Testus examplus" "From ITIS" "no" =
      .ok (some exRow1500, [("AB123456", exRow1500)]) ∧
    1300 < exRow1500.numBases :=
  ⟨by decide, by decide, rfl, by decide⟩

/-- C2: the spec says every resolved species' synonyms get their own
GenBank search.  The synonym `for` loop (genbi.py line 458) is indented
outside the species loop, so it only ever runs for the LAST species: with
two resolved species the first species' synonym `"Synonym A"` is never
searched, while with a single (hence last) species its synonym is. -/
theorem C2_synonym_loop_only_last_species :
    speciesLoopSearches [⟨"Species one", ["Synonym A"]⟩, ⟨"Species two", []⟩] =
      ["Species one", "Species two"] ∧
    "Synonym A" ∉
      speciesLoopSearches [⟨"Species one", ["Synonym A"]⟩, ⟨"Species two", []⟩] ∧
    speciesLoopSearches [⟨"Species one", ["Synonym A"]⟩] = ["Species one", "Synonym A"] :=
  ⟨by decide, by decide, by decide⟩

/-- C3 counterexample: the claim asserts that for EVERY pair of rows with
identical `final_score` the pre-sort relative order is preserved.  The
default `kind='quicksort'` of `sort_values` is numpy's introsort, whose
partition step swaps equal-key entries once a segment exceeds the
16-entry insertion-sort cutoff: on 17 rows all sharing `final_score = 3`
(the all-metrics-missing score), the tied rows 1 and 9 come out in the
order 9 before 1, so `[1, 9]` is not a sublist of the ranked order.  The
final conjunct records the full indexer the embedded `aquicksort`
computes for this input. -/
theorem C3_counterexample :
    (1 : ℕ) < 9 ∧ 9 < vEx17.length ∧ vEx17.getD 1 0 = vEx17.getD 9 0 ∧
    ¬ ([1, 9] <+ nargsortDesc vEx17) ∧
    nargsortDesc vEx17 = [0, 9, 15, 14, 13, 12, 11, 10, 8, 1, 7, 6, 5, 4, 3, 2, 16] :=
  ⟨by decide, by decide, rfl, by decide, by decide⟩

/-- C3 (amended): on frames of at most 16 rows — numpy's
`SMALL_QUICKSORT` cutoff, below which `aquicksort` runs only its stable
insertion sort — the per-scenario ranking is a stable descending sort by
`final_score`: the sort indexer is a permutation of the row indices, the
sorted key column is descending, two rows with equal keys keep their
pre-sort relative order; and (at any size) the appended rank column is
`1, 2, …, n` over the sorted order. -/
theorem C3_stable_descending_rank (v : List ℚ) (h16 : v.length ≤ 16) (i j : ℕ)
    (hij : i < j) (hj : j < v.length) (hkey : v.getD i 0 = v.getD j 0) :
    nargsortDesc v ~ List.range v.length ∧
    (nargsortDesc v).Pairwise (fun a b => v.getD b 0 ≤ v.getD a 0) ∧
    [i, j] <+ nargsortDesc v ∧
    (addRanks (nargsortDesc v)).map Prod.snd = List.range' 1 (nargsortDesc v).length :=
  ⟨nargsortDesc_perm v h16, nargsortDesc_pairwise v h16,
   nargsortDesc_stable v h16 i j hij hj hkey, addRanks_snd _⟩

theorem C3_witness :
    ([(3 : ℚ), 2, 2, 1]).length ≤ 16 ∧ (1 : ℕ) < 2 ∧
    (2 : ℕ) < ([(3 : ℚ), 2, 2, 1]).length ∧
    ([(3 : ℚ), 2, 2, 1]).getD 1 0 = ([(3 : ℚ), 2, 2, 1]).getD 2 0 ∧
    [1, 2] <+ nargsortDesc [(3 : ℚ), 2, 2, 1] :=
  ⟨by decide, by decide, by decide, rfl,
   (C3_stable_descending_rank [(3 : ℚ), 2, 2, 1] (by decide) 1 2 (by decide) (by decide)
     rfl).2.2.1⟩

/-- C4 counterexample: the claim says each of the four strategies
paginates until the reported total is exhausted, so every reported id is
collected.  `search_genbank_directly` issues a single request with
`retmax = 10000` and no pagination loop: on a query reporting 10001 ids
(`exDb`), id 10000 is reported but never collected. -/
theorem C4_counterexample :
    "COI" ∈ gene_variants ∧
    10000 ∈ exDb (orgnGeneQuery "Ordertaxon" "COI") ∧
    (10000, "Direct GenBank Search") ∉ search_genbank_directly exDb "Ordertaxon" := by
  refine ⟨by decide, ?_, ?_⟩
  · show 10000 ∈ (if orgnGeneQuery "Ordertaxon" "COI" = orgnGeneQuery "Ordertaxon" "COI"
      then List.range 10001 else [])
    rw [if_pos rfl]
    exact List.mem_range.mpr (by norm_num)
  · intro hmem
    rw [mem_search_genbank_directly] at hmem
    obtain ⟨-, v, hv, hx⟩ := hmem
    simp only [exDb] at hx
    by_cases hq : orgnGeneQuery "Ordertaxon" v = orgnGeneQuery "Ordertaxon" "COI"
    · rw [if_pos hq, List.take_range, List.mem_range] at hx
      omega
    · rw [if_neg hq] at hx
      simp at hx

/-- C4 (amended): `search_genbank` paginates with fixed page size 100
until the reported total is exhausted — complete from a zero offset, in
particular for the first gene variant of each call (the offset carries
over across the variant loop) — while the order-wide, per-family and
per-genus strategies each issue ONE request per gene variant with
`retmax = 10000` and collect exactly (up to set dedup) the first 10000
reported ids of each query, without pagination. -/
theorem C4_pagination_per_strategy (db : String → List ℕ) (ids : List ℕ) (retstart : ℕ)
    (species method order fam gen : String) (x : ℕ × String) (y : ℕ)
    (hy : y ∈ db (speciesQuery "cytochrome oxidase subunit 1" species)) :
    (collectPages ids 0).1 = ids ∧
    (collectPages ids retstart).1 = ids.drop retstart ∧
    (y, method) ∈ search_genbank db species method ∧
    (x ∈ search_genbank_directly db order ↔ x.2 = "Direct GenBank Search" ∧
      ∃ v ∈ gene_variants, x.1 ∈ (db (orgnGeneQuery order v)).take 10000) ∧
    (x ∈ search_genbank_family db fam ↔ x.2 = "Family Search" ∧
      ∃ v ∈ gene_variants, x.1 ∈ (db (orgnGeneQuery fam v)).take 10000) ∧
    (x ∈ search_genbank_genus db gen ↔ x.2 = "Genus Search" ∧
      ∃ v ∈ gene_variants, x.1 ∈ (db (orgnGeneQuery gen v)).take 10000) :=
  ⟨by rw [collectPages_fst, List.drop_zero], collectPages_fst ids retstart,
   search_genbank_first_variant db species method y hy,
   mem_search_genbank_directly db order x, mem_search_genbank_family db fam x,
   mem_search_genbank_genus db gen x⟩

theorem C4_witness :
    7 ∈ exDb2 (speciesQuery "cytochrome oxidase subunit 1" "Testus examplus") ∧
    (7, "From ITIS") ∈ search_genbank exDb2 "Testus examplus" "From ITIS" := by
  have h7 : 7 ∈ exDb2 (speciesQuery "cytochrome oxidase subunit 1" "Testus examplus") := by
    simp [exDb2]
  exact ⟨h7, (C4_pagination_per_strategy exDb2 [] 0 "Testus examplus" "From ITIS"
    "o" "f" "g" (0, "") 7 h7).2.2.1⟩

/-- C5: every record accepted by `extract_info` (emitted as a row) has at
least 590 base pairs, and every accepted record classified CYTB lies in
the `[1000, 1200]` band; records outside these bounds are dropped by
returning `None` with the registry unchanged. -/
theorem C5_length_filters (reg : Registry) (rec : SeqRecord) (vsn sm inc : String)
    (row : Row) (reg' : Registry)
    (h : extract_info reg rec vsn sm inc = .ok (some row, reg')) :
    590 ≤ row.numBases ∧
    (row.gene = "CYTB" → 1000 ≤ row.numBases ∧ row.numBases ≤ 1200) := by
  obtain ⟨-, hnb, -, -, h590, -, hband⟩ := extract_info_some_spec _ _ _ _ _ _ _ h
  rw [hnb]
  exact ⟨h590, hband⟩

theorem C5_witness :
    extract_info [] exRecordCytb "Testus examplus" "From ITIS" "yes" =
      .ok (some exRowCytb, [("CY111111", exRowCytb)]) ∧
    exRowCytb.gene = "CYTB" ∧
    590 ≤ exRowCytb.numBases ∧
    (exRowCytb.gene = "CYTB" → 1000 ≤ exRowCytb.numBases ∧ exRowCytb.numBases ≤ 1200) := by
  have hEq : extract_info [] exRecordCytb "Testus examplus" "From ITIS" "yes" =
      .ok (some exRowCytb, [("CY111111", exRowCytb)]) := rfl
  have h := C5_length_filters [] exRecordCytb "Testus examplus" "From ITIS" "yes"
    exRowCytb [("CY111111", exRowCytb)] hEq
  exact ⟨hEq, rfl, h.1, h.2⟩

/-- C6: `extract_info` is a no-op (`None`, registry unchanged) on an
already-registered accession; whenever it returns, it has registered the
record's accession if and only if it emitted a row, and that registration
appends exactly the emitted row under the record's accession (its only
state change); consequently, over a whole run started with the empty
registry, no two emitted rows share an accession. -/
theorem C6_dedup_invariant (reg : Registry) (rec : SeqRecord) (vsn sm inc : String)
    (recs : List (SeqRecord × String × String)) :
    (registryContains reg rec.id = true → extract_info reg rec vsn sm inc = .ok (none, reg)) ∧
    (∀ res reg', extract_info reg rec vsn sm inc = .ok (res, reg') →
      (res = none ∧ reg' = reg) ∨
        ∃ row, res = some row ∧ row.accession = rec.id ∧ reg' = reg ++ [(rec.id, row)]) ∧
    ((processRecords [] recs inc).2.map Row.accession).Nodup := by
  refine ⟨extract_info_dup reg rec vsn sm inc, ?_, (processRecords_rows_spec inc recs []).1⟩
  intro res reg' h
  cases res with
  | none => exact Or.inl ⟨rfl, extract_info_none_eq _ _ _ _ _ _ h⟩
  | some row =>
    obtain ⟨hacc, -, -, hreg', -, -, -⟩ := extract_info_some_spec _ _ _ _ _ _ _ h
    exact Or.inr ⟨row, rfl, hacc, hreg'⟩

theorem C6_witness :
    registryContains [("AB123456", exRow1500)] exRecord1500.id = true ∧
    extract_info [("AB123456", exRow1500)] exRecord1500 "Testus examplus" "From ITIS" "no" =
      .ok (none, [("AB123456", exRow1500)]) := by
  have h := (C6_dedup_invariant [("AB123456", exRow1500)] exRecord1500 "Testus examplus"
    "From ITIS" "no" []).1
  exact ⟨by decide, h (by decide)⟩

/-- C7: in every output row of either scenario, each criterion's absolute
contribution is its score times 0.25, the four absolute contributions sum
to `final_score` (within the claimed ±1e-9; here exactly), and the four
2-decimal percentage contributions sum to 100 ± 0.1. -/
theorem C7_contribution_invariants (r : ScoreInputs) :
    iucn_contribution_abs r = (iucn_score r : ℚ) * 0.25 ∧
    area_loss_contribution_abs r = (area_loss_score r : ℚ) * 0.25 ∧
    eoo_contribution_abs r = (eoo_score r : ℚ) * 0.25 ∧
    human_footprint_contribution_abs r = (human_footprint_score r : ℚ) * 0.25 ∧
    |iucn_contribution_abs r + area_loss_contribution_abs r + eoo_contribution_abs r +
        human_footprint_contribution_abs r - final_score r| ≤ 1 / 1000000000 ∧
    |pct_sum r - 100| ≤ 1 / 10 := by
  refine ⟨rfl, rfl, rfl, rfl, ?_, ?_⟩
  · rw [abs_contribution_sum r, sub_self, abs_zero]
    norm_num
  · have h := pct_sum_near_100 r
    calc |pct_sum r - 100| ≤ 1 / 50 := h
      _ ≤ 1 / 10 := by norm_num

/-- C8: every criterion score is at least 1, so `final_score` is at least
1.0 and in particular nonzero — the percentage-contribution division by
`final_score` can never divide by zero. -/
theorem C8_no_division_by_zero (r : ScoreInputs) :
    1 ≤ final_score r ∧ final_score r ≠ 0 ∧
    1 ≤ iucn_score r ∧ 1 ≤ area_loss_score r ∧ 1 ≤ eoo_score r ∧
    1 ≤ human_footprint_score r :=
  ⟨final_score_ge_one r, final_score_ne_zero r, (iucn_score_bounds r.iucn).1,
   (area_loss_score_bounds r.areaLoss).1, (eoo_score_bounds r.eoo).1,
   (human_footprint_score_bounds r.footprint).1⟩

/-- C9: all four scoring functions are total (they never raise: missing
and unparseable inputs take the guarded default paths) and integer-
valued, `calculate_iucn_score` ranges over 1–7, the other three over 1–5,
and each returns 3 on missing (and, for the numeric three, unparseable)
input. -/
theorem C9_scorer_totality :
    (∀ c, 1 ≤ calculate_iucn_score c ∧ calculate_iucn_score c ≤ 7) ∧
    calculate_iucn_score .missing = 3 ∧
    (∀ c, 1 ≤ calculate_area_loss_score c ∧ calculate_area_loss_score c ≤ 5) ∧
    calculate_area_loss_score .missing = 3 ∧ calculate_area_loss_score .unparseable = 3 ∧
    (∀ c, 1 ≤ calculate_eoo_score c ∧ calculate_eoo_score c ≤ 5) ∧
    calculate_eoo_score .missing = 3 ∧ calculate_eoo_score .unparseable = 3 ∧
    (∀ c, 1 ≤ calculate_human_footprint_score c ∧ calculate_human_footprint_score c ≤ 5) ∧
    calculate_human_footprint_score .missing = 3 ∧
    calculate_human_footprint_score .unparseable = 3 :=
  ⟨iucn_score_bounds, rfl, area_loss_score_bounds, rfl, rfl, eoo_score_bounds, rfl, rfl,
   human_footprint_score_bounds, rfl, rfl⟩

/-- C10 counterexample: the claim quantifies over EVERY fetched record
with an empty feature list, but a record whose accession is already in
the dedup registry short-circuits at the dedup check (genbi.py line 181)
and returns `None` — it does not raise. -/
theorem C10_counterexample :
    emptyFeatRecord.features = [] ∧
    extract_info [("AB123456", exRow1500)] emptyFeatRecord "X" "From ITIS" "yes" =
      .ok (none, [("AB123456", exRow1500)]) :=
  ⟨rfl, rfl⟩

/-- C10 (amended): for every fetched record whose feature list is empty
and whose accession is NOT already in the dedup registry, `extract_info`
raises (`record.features[0]` at genbi.py line 207) instead of returning a
row or `None`, so the record is never accepted and never registered; the
per-record `try/except` wrapper at each call site catches the exception
and continues the loop with the registry unchanged. -/
theorem C10_empty_features_raises (reg : Registry) (rec : SeqRecord) (vsn sm inc : String)
    (rest : List (SeqRecord × String × String))
    (hfeat : rec.features = []) (hfresh : registryContains reg rec.id = false) :
    extract_info reg rec vsn sm inc = .error .indexError ∧
    processRecords reg ((rec, vsn, sm) :: rest) inc = processRecords reg rest inc := by
  have hE := extract_info_empty_features reg rec vsn sm inc hfeat hfresh
  refine ⟨hE, ?_⟩
  simp only [processRecords, hE]

theorem C10_witness :
    emptyFeatRecord.features = [] ∧
    registryContains [] emptyFeatRecord.id = false ∧
    extract_info [] emptyFeatRecord "X" "From ITIS" "yes" = .error .indexError ∧
    processRecords [] [(emptyFeatRecord, "X", "From ITIS")] "yes" =
      processRecords [] [] "yes" := by
  have h := C10_empty_features_raises [] emptyFeatRecord "X" "From ITIS" "yes" [] rfl
    (by decide)
  exact ⟨rfl, by decide, h.1, h.2⟩

end HSR
